import Mathlib

/-!
Verification development for the valutatrade_hub exchange-rate engine.

We shallowly embed the rate-synchronization core of the repository:
the snapshot merge-write (`parser_service/storage.py`), the history
append with id-based dedup (`infra/database.py`), the multi-client
synchronizer (`parser_service/updater.py`), the rate resolver with
direct / inverse / USD-bridge lookup (`core/usecases.py`), and the
ExchangeRate-API payload normalization (`parser_service/api_clients.py`).

Modelling conventions:
* Python `dict`s (insertion-ordered, unique keys) are association lists
  `List (String × α)` manipulated through `dictLookup` / `dictSet`,
  which replace in place or append — exactly the dict semantics.
* Python `float` rates are modelled as exact rationals `ℚ`; the zero
  tests (`rate == 0`) and divisions map to the corresponding exact
  operations.
* Raised exceptions become `Except` errors / `Option.none`.
-/

namespace ValutaTrade

/-- Dict lookup, models `d.get(k)` / `k in d` on a Python dict rendered
as an insertion-ordered association list. -/
def dictLookup {α : Type} (k : String) : List (String × α) → Option α
  | [] => none
  | (k0, v0) :: rest => if k0 = k then some v0 else dictLookup k rest

/-- Dict assignment `d[k] = v`: replaces the value in place when the key
is present, appends at the end otherwise. -/
def dictSet {α : Type} (k : String) (v : α) : List (String × α) → List (String × α)
  | [] => [(k, v)]
  | (k0, v0) :: rest => if k0 = k then (k, v) :: rest else (k0, v0) :: dictSet k v rest

/-- One snapshot entry: `{"rate": ..., "updated_at": ..., "source": ...}`
(spec §3 RatePoint; written by `RatesUpdater.run_update`). -/
structure RatePoint where
  rate : ℚ
  updated_at : String
  source : String
deriving DecidableEq, Repr

/-- Value of a digit string (most significant first). -/
def digits_value : List Char → Nat :=
  List.foldl (fun a c => a * 10 + (c.toNat - 48)) 0

/-- Decodes a nonempty all-digit character list. -/
def digits_to_nat (cs : List Char) : Option Nat :=
  if cs ≠ [] ∧ cs.all Char.isDigit then some (digits_value cs) else none

/-- Core of the timestamp parse: accepts exactly `YYYY-MM-DDTHH:MM:SS`
and encodes it as an integer that is strictly monotone in chronological
order (lexicographic in year, month, day, hour, minute, second). -/
def parse_dt_core (cs : List Char) : Option Int := do
  guard (cs.length = 19)
  guard (cs.get? 4 = some '-' ∧ cs.get? 7 = some '-' ∧ cs.get? 10 = some 'T'
    ∧ cs.get? 13 = some ':' ∧ cs.get? 16 = some ':')
  let y ← digits_to_nat (cs.take 4)
  let mo ← digits_to_nat ((cs.drop 5).take 2)
  let d ← digits_to_nat ((cs.drop 8).take 2)
  let h ← digits_to_nat ((cs.drop 11).take 2)
  let mi ← digits_to_nat ((cs.drop 14).take 2)
  let sec ← digits_to_nat ((cs.drop 17).take 2)
  guard (1 ≤ mo ∧ mo ≤ 12 ∧ 1 ≤ d ∧ d ≤ 31 ∧ h ≤ 23 ∧ mi ≤ 59 ∧ sec ≤ 59)
  let enc : Nat := ((((y * 12 + mo) * 31 + d) * 24 + h) * 60 + mi) * 60 + sec
  pure (enc : Int)

/-- Removes the given suffix, or fails when it is not a suffix. -/
def drop_suffix (cs suffix : List Char) : Option (List Char) :=
  if suffix.length ≤ cs.length ∧ cs.drop (cs.length - suffix.length) = suffix then
    some (cs.take (cs.length - suffix.length))
  else none

/-- Models `core/utils.py::parse_dt` (`datetime.fromisoformat` after
`s.replace("Z", "+00:00")`) on the aware-UTC second-precision timestamps
this program produces (`iso_now_utc` / `isoformat_dt`, spec §3 and §6:
ISO-8601 UTC strings such as `2024-01-02T03:04:05Z`).  `none` models the
exception branch; strings outside the program's timestamp format are in
the failure domain of the model. -/
def parse_dt (s : String) : Option Int :=
  match drop_suffix s.toList ['+', '0', '0', ':', '0', '0'] with
  | some core => parse_dt_core core
  | none =>
    match drop_suffix s.toList ['Z'] with
    | some core => parse_dt_core core
    | none => none

/-- The snapshot document `{"pairs": ..., "last_refresh": ...}`
(spec §3; `data/rates.json`). -/
structure Snapshot where
  pairs : List (String × RatePoint)
  last_refresh : Option String
deriving DecidableEq, Repr

/-- Loop body of `RatesStorage.write_snapshot` for one payload item
`(k, v)`: insert when the key is absent, otherwise replace only when the
incoming `updated_at` parses strictly newer than the stored one, with
parse failure on either side defaulting to replace. -/
def merge_pair (cur : List (String × RatePoint)) (k : String) (v : RatePoint) :
    List (String × RatePoint) :=
  match dictLookup k cur with
  | none => cur ++ [(k, v)]
  | some old =>
    match parse_dt v.updated_at, parse_dt old.updated_at with
    | some tNew, some tOld => if tOld < tNew then dictSet k v cur else cur
    | _, _ => dictSet k v cur

/-- The value `merge_pair` leaves at the merged key, as a function of the
previously stored value. -/
def merge_decision (old? : Option RatePoint) (v : RatePoint) : RatePoint :=
  match old? with
  | none => v
  | some old =>
    match parse_dt v.updated_at, parse_dt old.updated_at with
    | some tNew, some tOld => if tOld < tNew then v else old
    | _, _ => v

/-- The `for k, v in pairs.items()` loop of `RatesStorage.write_snapshot`. -/
def merge_all (cur : List (String × RatePoint)) (payload : List (String × RatePoint)) :
    List (String × RatePoint) :=
  payload.foldl (fun acc kv => merge_pair acc kv.1 kv.2) cur

/-- Models `RatesStorage.write_snapshot(pairs, last_refresh)`
(`parser_service/storage.py` lines 24–42): reads the current snapshot,
merges every payload item with `merge_pair`, and stores the payload's
`last_refresh` at top level. -/
def write_snapshot (current : Snapshot) (payload : List (String × RatePoint))
    (last_refresh : String) : Snapshot :=
  { pairs := merge_all current.pairs payload
    last_refresh := some last_refresh }

/-! ### Association-list lemmas -/

theorem dictLookup_set_self {α : Type} (k : String) (v : α) :
    ∀ l : List (String × α), dictLookup k (dictSet k v l) = some v
  | [] => by simp [dictSet, dictLookup]
  | (k0, v0) :: rest => by
    by_cases h : k0 = k
    · simp [dictSet, dictLookup, h]
    · simp [dictSet, dictLookup, h, dictLookup_set_self k v rest]

theorem dictLookup_set_ne {α : Type} {k' k : String} (h : k' ≠ k) (v : α) :
    ∀ l : List (String × α), dictLookup k' (dictSet k v l) = dictLookup k' l
  | [] => by simp [dictSet, dictLookup, Ne.symm h]
  | (k0, v0) :: rest => by
    by_cases hk : k0 = k
    · subst hk
      simp [dictSet, dictLookup, Ne.symm h]
    · simp [dictSet, dictLookup, hk, dictLookup_set_ne h v rest]

theorem dictLookup_append_ne {α : Type} {k' k : String} (h : k' ≠ k) (v : α) :
    ∀ l : List (String × α), dictLookup k' (l ++ [(k, v)]) = dictLookup k' l
  | [] => by simp [dictLookup, Ne.symm h]
  | (k0, v0) :: rest => by
    by_cases hk : k0 = k'
    · simp [dictLookup, hk]
    · simp [dictLookup, hk, dictLookup_append_ne h v rest]

theorem dictLookup_append_self {α : Type} {k : String} (v : α) :
    ∀ l : List (String × α), dictLookup k l = none →
      dictLookup k (l ++ [(k, v)]) = some v
  | [], _ => by simp [dictLookup]
  | (k0, v0) :: rest, h => by
    by_cases hk : k0 = k
    · simp [dictLookup, hk] at h
    · simp [dictLookup, hk] at h ⊢
      exact dictLookup_append_self v rest h

theorem dictSet_of_lookup_eq {α : Type} {k : String} {v : α} :
    ∀ {l : List (String × α)}, dictLookup k l = some v → dictSet k v l = l
  | [], h => by simp [dictLookup] at h
  | (k0, v0) :: rest, h => by
    by_cases hk : k0 = k
    · subst hk
      simp [dictLookup] at h
      simp [dictSet, h]
    · simp [dictLookup, hk] at h
      simp [dictSet, hk, dictSet_of_lookup_eq h]

theorem dictLookup_isSome_mem_keys {α : Type} {k : String} :
    ∀ {l : List (String × α)}, (dictLookup k l).isSome → k ∈ l.map Prod.fst
  | [], h => by simp [dictLookup] at h
  | (k0, v0) :: rest, h => by
    by_cases hk : k0 = k
    · simp [hk]
    · simp [dictLookup, hk] at h
      simp [dictLookup_isSome_mem_keys h]

theorem mem_of_dictSet {α : Type} {k : String} {v : α} :
    ∀ {l : List (String × α)} {p : String × α}, p ∈ dictSet k v l → p = (k, v) ∨ p ∈ l
  | [], p, h => by simpa [dictSet] using h
  | (k0, v0) :: rest, p, h => by
    by_cases hk : k0 = k
    · simp [dictSet, hk] at h
      rcases h with h | h
      · exact Or.inl (by simp [h])
      · exact Or.inr (by simp [h])
    · simp [dictSet, hk] at h
      rcases h with h | h
      · exact Or.inr (by simp [h])
      · rcases mem_of_dictSet h with h' | h'
        · exact Or.inl h'
        · exact Or.inr (by simp [h'])

/-! ### Merge-write lemmas -/

theorem merge_pair_lookup_self (cur : List (String × RatePoint)) (k : String) (v : RatePoint) :
    dictLookup k (merge_pair cur k v) = some (merge_decision (dictLookup k cur) v) := by
  unfold merge_pair merge_decision
  cases hc : dictLookup k cur with
  | none => exact dictLookup_append_self v cur hc
  | some old =>
    cases hv : parse_dt v.updated_at with
    | none => simp [hv, dictLookup_set_self]
    | some tN =>
      cases ho : parse_dt old.updated_at with
      | none => simp [hv, ho, dictLookup_set_self]
      | some tO =>
        by_cases hlt : tO < tN
        · simp [hv, ho, hlt, dictLookup_set_self]
        · simp [hv, ho, hlt, hc]

theorem merge_pair_lookup_ne {k' k : String} (h : k' ≠ k)
    (cur : List (String × RatePoint)) (v : RatePoint) :
    dictLookup k' (merge_pair cur k v) = dictLookup k' cur := by
  unfold merge_pair
  cases hc : dictLookup k cur with
  | none => exact dictLookup_append_ne h v cur
  | some old =>
    cases hv : parse_dt v.updated_at with
    | none => simp [hv, dictLookup_set_ne h]
    | some tN =>
      cases ho : parse_dt old.updated_at with
      | none => simp [hv, ho, dictLookup_set_ne h]
      | some tO =>
        by_cases hlt : tO < tN
        · simp [hv, ho, hlt, dictLookup_set_ne h]
        · simp [hv, ho, hlt]

theorem merge_pair_isSome {k' : String} (cur : List (String × RatePoint))
    (k : String) (v : RatePoint) (h : (dictLookup k' cur).isSome) :
    (dictLookup k' (merge_pair cur k v)).isSome := by
  by_cases hk : k' = k
  · subst hk
    rw [merge_pair_lookup_self]
    rfl
  · rw [merge_pair_lookup_ne hk]
    exact h

theorem merge_all_cons (cur : List (String × RatePoint)) (k : String) (v : RatePoint)
    (rest : List (String × RatePoint)) :
    merge_all cur ((k, v) :: rest) = merge_all (merge_pair cur k v) rest := rfl

theorem merge_all_lookup_ne {k : String} :
    ∀ (p : List (String × RatePoint)) (cur : List (String × RatePoint)),
      k ∉ p.map Prod.fst → dictLookup k (merge_all cur p) = dictLookup k cur
  | [], cur, _ => rfl
  | (k0, v0) :: rest, cur, h => by
    have h1 : k ≠ k0 := by
      intro hh
      exact h (by simp [hh])
    have h2 : k ∉ rest.map Prod.fst := by
      intro hh
      exact h (by simp [hh])
    rw [merge_all_cons, merge_all_lookup_ne rest _ h2, merge_pair_lookup_ne h1]

theorem merge_all_isSome {k : String} :
    ∀ (p : List (String × RatePoint)) (cur : List (String × RatePoint)),
      (dictLookup k cur).isSome → (dictLookup k (merge_all cur p)).isSome
  | [], _, h => h
  | (k0, v0) :: rest, cur, h => by
    rw [merge_all_cons]
    exact merge_all_isSome rest _ (merge_pair_isSome cur k0 v0 h)

theorem merge_all_isSome_of_mem {k : String} :
    ∀ (p : List (String × RatePoint)) (cur : List (String × RatePoint)),
      k ∈ p.map Prod.fst → (dictLookup k (merge_all cur p)).isSome
  | [], _, h => by simp at h
  | (k0, v0) :: rest, cur, h => by
    rw [merge_all_cons]
    by_cases hk : k = k0
    · subst hk
      refine merge_all_isSome rest _ ?_
      rw [merge_pair_lookup_self]
      rfl
    · refine merge_all_isSome_of_mem rest _ ?_
      simpa [hk] using h

theorem merge_decision_spec (w : Option RatePoint) (v : RatePoint) :
    merge_decision w v = v ∨
      ∃ old tN tO, w = some old ∧ parse_dt v.updated_at = some tN ∧
        parse_dt old.updated_at = some tO ∧ ¬ tO < tN ∧ merge_decision w v = old := by
  cases w with
  | none => exact Or.inl rfl
  | some old =>
    cases hv : parse_dt v.updated_at with
    | none => exact Or.inl (by simp [merge_decision, hv])
    | some tN =>
      cases ho : parse_dt old.updated_at with
      | none => exact Or.inl (by simp [merge_decision, hv, ho])
      | some tO =>
        by_cases hlt : tO < tN
        · exact Or.inl (by simp [merge_decision, hv, ho, hlt])
        · exact Or.inr ⟨old, tN, tO, rfl, rfl, ho, hlt, by simp [merge_decision, hv, ho, hlt]⟩

theorem merge_pair_absorb {X : List (String × RatePoint)} {k : String} {v : RatePoint}
    (w : Option RatePoint) (h : dictLookup k X = some (merge_decision w v)) :
    merge_pair X k v = X := by
  rcases merge_decision_spec w v with hd | ⟨old, tN, tO, _, hN, hO, hnlt, hd⟩
  · rw [hd] at h
    unfold merge_pair
    rw [h]
    cases hv : parse_dt v.updated_at with
    | none => simp [hv, dictSet_of_lookup_eq h]
    | some t => simp [hv]
  · rw [hd] at h
    unfold merge_pair
    rw [h]
    simp [hN, hO, hnlt]

theorem merge_all_idem :
    ∀ (p : List (String × RatePoint)) (cur : List (String × RatePoint)),
      (p.map Prod.fst).Nodup → merge_all (merge_all cur p) p = merge_all cur p
  | [], cur, _ => rfl
  | (k, v) :: rest, cur, h => by
    rw [List.map_cons, List.nodup_cons] at h
    have hknotin : k ∉ rest.map Prod.fst := h.1
    have hrest : (rest.map Prod.fst).Nodup := h.2
    rw [merge_all_cons]
    rw [merge_all_cons]
    have hA : dictLookup k (merge_all (merge_pair cur k v) rest)
        = some (merge_decision (dictLookup k cur) v) := by
      rw [merge_all_lookup_ne rest _ hknotin, merge_pair_lookup_self]
    rw [merge_pair_absorb (dictLookup k cur) hA]
    exact merge_all_idem rest _ hrest

theorem write_single_lookup (s : Snapshot) (k : String) (v : RatePoint) (lr : String) :
    dictLookup k (write_snapshot s [(k, v)] lr).pairs
      = some (merge_decision (dictLookup k s.pairs) v) :=
  merge_pair_lookup_self s.pairs k v

/-! ### Claim theorems: merge-write (C1, C7, C9) -/

/-- C1: per pair key, `write_snapshot` inserts a key absent from the
existing snapshot; a present key is replaced only when the incoming
RatePoint's `updated_at` parses strictly newer than the stored one, and a
parse failure on either side defaults to replacement.  Consequently two
RatePoints with distinct parseable timestamps written to the same
(previously absent) key leave the later one stored, in either order of
the two `merge_write` calls. -/
theorem merge_write_rule_and_recency (s : Snapshot) (k : String) (v : RatePoint) (lr : String) :
    (dictLookup k s.pairs = none →
      dictLookup k (write_snapshot s [(k, v)] lr).pairs = some v) ∧
    (∀ old tN tO, dictLookup k s.pairs = some old →
      parse_dt v.updated_at = some tN → parse_dt old.updated_at = some tO →
      dictLookup k (write_snapshot s [(k, v)] lr).pairs
        = some (if tO < tN then v else old)) ∧
    (∀ old, dictLookup k s.pairs = some old →
      parse_dt v.updated_at = none ∨ parse_dt old.updated_at = none →
      dictLookup k (write_snapshot s [(k, v)] lr).pairs = some v) ∧
    (∀ v1 v2 t1 t2 lr1 lr2, parse_dt v1.updated_at = some t1 →
      parse_dt v2.updated_at = some t2 → t1 ≠ t2 → dictLookup k s.pairs = none →
      dictLookup k (write_snapshot (write_snapshot s [(k, v1)] lr1) [(k, v2)] lr2).pairs
          = some (if t1 < t2 then v2 else v1) ∧
      dictLookup k (write_snapshot (write_snapshot s [(k, v2)] lr2) [(k, v1)] lr1).pairs
          = some (if t1 < t2 then v2 else v1)) := by
  refine ⟨?_, ?_, ?_, ?_⟩
  · intro h
    rw [write_single_lookup, h]
    rfl
  · intro old tN tO h hN hO
    rw [write_single_lookup, h]
    simp [merge_decision, hN, hO]
  · intro old h hfail
    rw [write_single_lookup, h]
    rcases hfail with hf | hf
    · simp [merge_decision, hf]
    · cases hv : parse_dt v.updated_at with
      | none => simp [merge_decision, hv]
      | some tN => simp [merge_decision, hv, hf]
  · intro v1 v2 t1 t2 lr1 lr2 h1 h2 hne h0
    have e1 : dictLookup k (write_snapshot s [(k, v1)] lr1).pairs = some v1 := by
      rw [write_single_lookup, h0]
      rfl
    have e2 : dictLookup k (write_snapshot s [(k, v2)] lr2).pairs = some v2 := by
      rw [write_single_lookup, h0]
      rfl
    constructor
    · rw [write_single_lookup, e1]
      simp [merge_decision, h1, h2]
    · rw [write_single_lookup, e2]
      rcases lt_or_gt_of_ne hne with hlt | hlt
      · simp [merge_decision, h1, h2, hlt, lt_asymm hlt]
      · simp [merge_decision, h1, h2, hlt, lt_asymm hlt]

/-- Sample snapshot used by concrete witnesses. -/
def sample_snapshot : Snapshot :=
  ⟨[("GBP_USD", ⟨2, "0001-01-01T00:00:05Z", "x"⟩)], none⟩

/-- Sample merge payload used by concrete witnesses. -/
def sample_payload : List (String × RatePoint) :=
  [("EUR_USD", ⟨3, "0001-01-01T00:00:06Z", "y"⟩),
   ("BTC_USD", ⟨9, "0001-01-01T00:00:07Z", "y"⟩)]

/-- Witness for C1: concrete insert, then recency in both orders. -/
theorem merge_write_rule_and_recency_witness :
    dictLookup "EUR_USD"
        (write_snapshot ⟨[], none⟩
          [("EUR_USD", ⟨1, "0001-01-01T00:00:01Z", "a"⟩)] "r").pairs
      = some ⟨1, "0001-01-01T00:00:01Z", "a"⟩ ∧
    dictLookup "EUR_USD"
        (write_snapshot
          (write_snapshot ⟨[], none⟩
            [("EUR_USD", ⟨1, "0001-01-01T00:00:01Z", "a"⟩)] "r")
          [("EUR_USD", ⟨2, "0001-01-01T00:00:02Z", "b"⟩)] "r").pairs
      = some ⟨2, "0001-01-01T00:00:02Z", "b"⟩ := by
  have h := merge_write_rule_and_recency ⟨[], none⟩ "EUR_USD"
    ⟨1, "0001-01-01T00:00:01Z", "a"⟩ "r"
  refine ⟨h.1 rfl, ?_⟩
  have h4 := (h.2.2.2 ⟨1, "0001-01-01T00:00:01Z", "a"⟩ ⟨2, "0001-01-01T00:00:02Z", "b"⟩
      34905601 34905602 "r" "r" (by decide) (by decide) (by decide) rfl).1
  simpa [(by decide : (34905601 : Int) < 34905602)] using h4

/-- C7: applying the same `merge_write` payload twice in succession
produces a snapshot identical to applying it once. -/
theorem merge_write_idempotent (s : Snapshot) (p : List (String × RatePoint)) (lr : String)
    (h : (p.map Prod.fst).Nodup) :
    write_snapshot (write_snapshot s p lr) p lr = write_snapshot s p lr := by
  unfold write_snapshot
  simp [merge_all_idem p s.pairs h]

/-- Witness for C7 at a concrete snapshot and two-key payload. -/
theorem merge_write_idempotent_witness :
    (sample_payload.map Prod.fst).Nodup ∧
    write_snapshot (write_snapshot sample_snapshot sample_payload "r") sample_payload "r"
      = write_snapshot sample_snapshot sample_payload "r" :=
  ⟨by decide, merge_write_idempotent sample_snapshot sample_payload "r" (by decide)⟩

/-- C9: `merge_write` keeps every pair key absent from the payload bound
to exactly its prior RatePoint, and never removes a key present before;
only payload keys and the top-level `last_refresh` may change. -/
theorem merge_write_frame (s : Snapshot) (p : List (String × RatePoint)) (lr : String) :
    (∀ k, k ∉ p.map Prod.fst →
      dictLookup k (write_snapshot s p lr).pairs = dictLookup k s.pairs) ∧
    (∀ k, (dictLookup k s.pairs).isSome →
      (dictLookup k (write_snapshot s p lr).pairs).isSome) :=
  ⟨fun _ hk => merge_all_lookup_ne p s.pairs hk,
   fun _ hk => merge_all_isSome p s.pairs hk⟩

/-- Witness for C9 at a concrete snapshot whose key is not refreshed. -/
theorem merge_write_frame_witness :
    dictLookup "GBP_USD" (write_snapshot sample_snapshot sample_payload "r").pairs
      = dictLookup "GBP_USD" sample_snapshot.pairs ∧
    (dictLookup "GBP_USD" (write_snapshot sample_snapshot sample_payload "r").pairs).isSome :=
  ⟨(merge_write_frame sample_snapshot sample_payload "r").1 "GBP_USD" (by decide),
   (merge_write_frame sample_snapshot sample_payload "r").2 "GBP_USD" (by decide)⟩

/-! ### History log (C4) -/

/-- The `meta` sub-document of a history row, built by
`RatesUpdater.run_update` from the client's `last_meta`. -/
structure HistoryMeta where
  raw_id : Option String
  request_ms : Option Int
  status_code : Option Int
  etag : Option String
deriving DecidableEq, Repr

/-- One row of `data/exchange_rates.json` (spec §3 HistoryEntry). -/
structure HistoryEntry where
  id : String
  from_currency : String
  to_currency : String
  rate : ℚ
  timestamp : String
  source : String
  meta : HistoryMeta
deriving DecidableEq, Repr

/-- Models `DatabaseManager.append_history(entries)` (`infra/database.py` lines
128–134): the set of existing ids is computed once from the prior
history, then every entry whose id is not in that set is appended. -/
def append_history (history : List HistoryEntry) (entries : List HistoryEntry) :
    List HistoryEntry :=
  let existing_ids := history.map HistoryEntry.id
  entries.foldl (fun h e => if e.id ∈ existing_ids then h else h ++ [e]) history

theorem append_history_foldl (ids : List String) :
    ∀ (entries : List HistoryEntry) (acc : List HistoryEntry),
      entries.foldl (fun h e => if e.id ∈ ids then h else h ++ [e]) acc
        = acc ++ entries.filter (fun e => e.id ∉ ids)
  | [], acc => by simp
  | e :: rest, acc => by
    by_cases hc : e.id ∈ ids
    · simp [hc, append_history_foldl ids rest acc]
    · simp [hc, append_history_foldl ids rest (acc ++ [e])]

theorem append_history_eq (history entries : List HistoryEntry) :
    append_history history entries
      = history ++ entries.filter
          (fun e => e.id ∉ history.map HistoryEntry.id) :=
  append_history_foldl _ entries history

/-- Sample history row used by concrete (counter)examples. -/
def sample_entry : HistoryEntry :=
  ⟨"EUR_USD_0001-01-01T00:00:01Z", "EUR", "USD", 1, "0001-01-01T00:00:01Z", "test",
    ⟨none, none, none, none⟩⟩

/-- Second sample history row, with a distinct id. -/
def sample_entry2 : HistoryEntry :=
  ⟨"BTC_USD_0001-01-01T00:00:01Z", "BTC", "USD", 9, "0001-01-01T00:00:01Z", "test",
    ⟨none, none, none, none⟩⟩

/-- C4 counterexample: one `append_history` call whose entry list repeats
a fresh id appends both copies — the resulting history holds two rows
with the same id, and its length is 2 although only 1 distinct id was
appended to an empty history. -/
theorem append_history_dup_counterexample :
    append_history [] [sample_entry, sample_entry] = [sample_entry, sample_entry] ∧
    ¬ ((append_history [] [sample_entry, sample_entry]).map HistoryEntry.id).Nodup ∧
    (append_history [] [sample_entry, sample_entry]).length = 2 := by
  refine ⟨?_, ?_, ?_⟩ <;> decide

/-- C4 (amended): dedup is computed against the prior history only.
Appending an entry whose id already exists in the prior history is a
no-op, and `append_history` equals the prior history extended, in order,
by exactly the entries with fresh ids; when the appended list itself
repeats no id, the history stays duplicate-free and its length is the
prior length plus the number of fresh-id entries. -/
theorem append_history_dedup (history entries : List HistoryEntry) :
    append_history history entries
      = history ++ entries.filter
          (fun e => e.id ∉ history.map HistoryEntry.id) ∧
    (∀ e, e.id ∈ history.map HistoryEntry.id → append_history history [e] = history) ∧
    ((history.map HistoryEntry.id).Nodup → (entries.map HistoryEntry.id).Nodup →
      ((append_history history entries).map HistoryEntry.id).Nodup ∧
      (append_history history entries).length
        = history.length + (entries.filter
            (fun e => e.id ∉ history.map HistoryEntry.id)).length) := by
  refine ⟨append_history_eq history entries, ?_, ?_⟩
  · intro e he
    show (if e.id ∈ history.map HistoryEntry.id then history else history ++ [e]) = history
    exact if_pos he
  · intro h1 h2
    constructor
    · rw [append_history_eq, List.map_append]
      rw [List.nodup_append]
      refine ⟨h1, ?_, ?_⟩
      · exact ((List.filter_sublist entries).map HistoryEntry.id).nodup h2
      · intro x hx hx'
        rcases List.mem_map.mp hx' with ⟨e, hef, hei⟩
        rcases List.mem_filter.mp hef with ⟨_, hkeep⟩
        rw [← hei] at hx
        simp [hx] at hkeep
    · rw [append_history_eq, List.length_append]

/-- Witness for C4's amended statement at concrete histories. -/
theorem append_history_dedup_witness :
    append_history [sample_entry] [sample_entry, sample_entry2]
      = [sample_entry] ++ [sample_entry, sample_entry2].filter
          (fun e => e.id ∉ [sample_entry].map HistoryEntry.id) ∧
    append_history [sample_entry] [sample_entry] = [sample_entry] ∧
    (((append_history [sample_entry] [sample_entry, sample_entry2]).map
        HistoryEntry.id).Nodup ∧
      (append_history [sample_entry] [sample_entry, sample_entry2]).length
        = [sample_entry].length + ([sample_entry, sample_entry2].filter
            (fun e => e.id ∉ [sample_entry].map HistoryEntry.id)).length) := by
  have h := append_history_dedup [sample_entry] [sample_entry, sample_entry2]
  exact ⟨h.1, (append_history_dedup [sample_entry] [sample_entry]).2.1 sample_entry (by decide),
    h.2.2 (by decide) (by decide)⟩

/-! ### Rate resolver (C5, C6, C10) -/

/-- Python `str.upper()` on the ASCII strings this program's currency codes and
pair keys use. -/
def py_upper (s : String) : String :=
  String.mk (s.toList.map Char.toUpper)

/-- The whitespace set stripped by Python `str.strip()`. -/
def is_py_space (c : Char) : Bool :=
  c = ' ' || c = '\t' || c = '\n' || c = '\r' || c = '\x0b' || c = '\x0c'

/-- Python `str.strip()`. -/
def py_strip (s : String) : String :=
  String.mk (((s.toList.dropWhile is_py_space).reverse.dropWhile is_py_space).reverse)

/-- Models `core/utils.py::pair_key`: the canonical `FROM_TO` key. -/
def pair_key (from_code to_code : String) : String :=
  py_upper from_code ++ "_" ++ py_upper to_code

/-- The regex `^[A-Z]{2,5}$` (`_CODE_RE`) checked by `re.match` (fully anchored). -/
def code_re_match (c : String) : Bool :=
  2 ≤ c.toList.length && c.toList.length ≤ 5
    && c.toList.all (fun ch => 'A' ≤ ch && ch ≤ 'Z')

/-- Modelled from the spec: `core/exceptions.py` is not under `src/`.
Spec §7 names the taxonomy: CurrencyNotFound for unknown codes, and
SourceUnavailable — the code's `ApiRequestError` — for unresolvable or
corrupt rates; `ValueError` raised by the argument validators is kept as
a separate variant. -/
inductive RateError where
  | valueError (msg : String)
  | currencyNotFound (code : String)
  | apiRequest (msg : String)
deriving DecidableEq, Repr

/-- Models `core/utils.py::validate_currency_code`. -/
def validate_currency_code (code : String) : Except RateError Unit :=
  let c := py_upper (py_strip code)
  if c.toList.contains ' ' || !(code_re_match c) then
    .error (.valueError "code must be 2-5 uppercase letters without spaces")
  else .ok ()

/-- The `core/currencies.py` currency variants (display data carried, not
used by resolution). -/
inductive Currency where
  | fiat (name code issuing_country : String)
  | crypto (name code algorithm : String) (market_cap : ℚ)
deriving DecidableEq, Repr

/-- The supported-currency registry of `core/currencies.py`. -/
def _REGISTRY : List (String × Currency) :=
  [("USD", .fiat "US Dollar" "USD" "United States"),
   ("EUR", .fiat "Euro" "EUR" "Eurozone"),
   ("GBP", .fiat "British Pound" "GBP" "United Kingdom"),
   ("RUB", .fiat "Russian Ruble" "RUB" "Russia"),
   ("BTC", .crypto "Bitcoin" "BTC" "SHA-256" 1120000000000),
   ("ETH", .crypto "Ethereum" "ETH" "Ethash" 450000000000),
   ("SOL", .crypto "Solana" "SOL" "PoH" 70000000000)]

/-- The registry's key set. -/
def registry_codes : List String :=
  _REGISTRY.map Prod.fst

/-- Models `core/currencies.py::get_currency`. -/
def get_currency (code : String) : Except RateError Currency :=
  let code_u := py_strip (py_upper code)
  match dictLookup code_u _REGISTRY with
  | some c => .ok c
  | none => .error (.currencyNotFound code_u)

/-- Models `CoreUseCases._get_pair_rate` (`core/usecases.py` lines 134–167):
validate both codes, then direct lookup, then inverse lookup with the
zero-rate guard, then the USD bridge (recursively resolving
`from→USD` and `to→USD`) with the zero-bridge guard. -/
def get_pair_rate (pairs : List (String × RatePoint)) (from_code to_code : String) :
    Except RateError (ℚ × String) :=
  match validate_currency_code from_code with
  | .error e => .error e
  | .ok _ =>
  match validate_currency_code to_code with
  | .error e => .error e
  | .ok _ =>
  match get_currency from_code with
  | .error e => .error e
  | .ok _ =>
  match get_currency to_code with
  | .error e => .error e
  | .ok _ =>
  match dictLookup (pair_key from_code to_code) pairs with
  | some item => .ok (item.rate, item.updated_at)
  | none =>
  match dictLookup (pair_key to_code from_code) pairs with
  | some item =>
    if item.rate = 0 then .error (.apiRequest "Нулевой курс в кеше")
    else .ok (1 / item.rate, item.updated_at)
  | none =>
    if h : from_code ≠ "USD" ∧ to_code ≠ "USD" then
      match get_pair_rate pairs from_code "USD" with
      | .error e => .error e
      | .ok (r_from, upd) =>
        match get_pair_rate pairs to_code "USD" with
        | .error e => .error e
        | .ok (r_to, _) =>
          if r_to = 0 then .error (.apiRequest "Нулевой курс USD-моста")
          else .ok (r_from / r_to, upd)
    else
      .error (.apiRequest ("Курс " ++ from_code ++ "→" ++ to_code ++ " не найден в кеше"))
termination_by (if to_code = "USD" then 0 else 1)
decreasing_by
  all_goals simp [h.2]

/-- Models `CoreUseCases.get_rate` (`core/usecases.py` lines 169–187) without
the advisory staleness computation: the first resolution attempt, with
`ApiRequestError` (and only it) triggering one refresh-and-retry.  The
outcome of `_try_refresh_rates()` — network I/O through the Parser
Service — is passed as a parameter: `.ok pairs2` is the snapshot pairs it
leaves behind, `.error e` the failure it wraps into `ApiRequestError`. -/
def get_rate_resolve (pairs : List (String × RatePoint))
    (refresh : Except String (List (String × RatePoint)))
    (from_code to_code : String) : Except RateError (ℚ × String) :=
  match get_pair_rate pairs from_code to_code with
  | .ok r => .ok r
  | .error (.currencyNotFound c) => .error (.currencyNotFound c)
  | .error (.valueError m) => .error (.valueError m)
  | .error (.apiRequest _) =>
    match refresh with
    | .error e => .error (.apiRequest e)
    | .ok pairs2 => get_pair_rate pairs2 from_code to_code

/-- Models `CoreUseCases._convert_amount` (`core/usecases.py` lines 210–214):
identity shortcut on equal uppercased codes, otherwise resolve and
multiply. -/
def convert_amount (pairs : List (String × RatePoint)) (amount : ℚ)
    (from_code to_code : String) : Except RateError ℚ :=
  if py_upper from_code = py_upper to_code then .ok amount
  else
    match get_pair_rate pairs from_code to_code with
    | .error e => .error e
    | .ok (r, _) => .ok (amount * r)

theorem supported_code_facts {c : String} (h : c ∈ registry_codes) :
    validate_currency_code c = .ok () ∧ (∃ cur, get_currency c = .ok cur) ∧ py_upper c = c := by
  have h' : c = "USD" ∨ c = "EUR" ∨ c = "GBP" ∨ c = "RUB"
      ∨ c = "BTC" ∨ c = "ETH" ∨ c = "SOL" := by
    simpa [registry_codes, _REGISTRY] using h
  rcases h' with rfl | rfl | rfl | rfl | rfl | rfl | rfl <;>
    exact ⟨rfl, ⟨_, rfl⟩, by decide⟩

/-- C6: if only `PairKey(A,B)` is stored, with RatePoint `item`, then
`get_rate(B,A)` resolves through the inverse branch: it returns
`1 / item.rate` together with the stored `updated_at` when the stored
rate is nonzero, and fails (data corruption) instead of dividing when
the stored rate is exactly zero. -/
theorem inverse_lookup_rate (pairs : List (String × RatePoint)) (A B : String)
    (item : RatePoint) (hA : A ∈ registry_codes) (hB : B ∈ registry_codes)
    (hdir : dictLookup (pair_key B A) pairs = none)
    (hrev : dictLookup (pair_key A B) pairs = some item) :
    (item.rate ≠ 0 → get_pair_rate pairs B A = .ok (1 / item.rate, item.updated_at)) ∧
    (item.rate = 0 →
      get_pair_rate pairs B A = .error (.apiRequest "Нулевой курс в кеше")) := by
  obtain ⟨hvA, ⟨cA, hcA⟩, -⟩ := supported_code_facts hA
  obtain ⟨hvB, ⟨cB, hcB⟩, -⟩ := supported_code_facts hB
  constructor <;> intro hz
  · rw [get_pair_rate.eq_def]
    simp only [hvB, hvA, hcB, hcA, hdir, hrev]
    simp [hz]
  · rw [get_pair_rate.eq_def]
    simp only [hvB, hvA, hcB, hcA, hdir, hrev]
    simp [hz]

/-- Witness for C6: only `EUR_USD = 2` is stored; `get_rate(USD, EUR)`
returns `1/2` with the stored timestamp. -/
theorem inverse_lookup_rate_witness :
    get_pair_rate [("EUR_USD", ⟨2, "0001-01-01T00:00:05Z", "x"⟩)] "USD" "EUR"
      = .ok (1 / 2, "0001-01-01T00:00:05Z") :=
  (inverse_lookup_rate [("EUR_USD", ⟨2, "0001-01-01T00:00:05Z", "x"⟩)] "EUR" "USD"
      ⟨2, "0001-01-01T00:00:05Z", "x"⟩
      (by decide) (by decide) (by decide) (by decide)).1 (by decide)

/-- C5: when neither code is the base currency and neither the direct nor
the inverse pair key is stored, `_get_pair_rate` recursively resolves
`from→USD` and `to→USD`, returns their quotient with the `from→USD`
timestamp, and fails with the source-unavailable error instead of
dividing when the `to→USD` bridge rate is zero. -/
theorem bridge_lookup_rate (pairs : List (String × RatePoint)) (f t : String)
    (hf : f ∈ registry_codes) (ht : t ∈ registry_codes)
    (hfU : f ≠ "USD") (htU : t ≠ "USD")
    (hdir : dictLookup (pair_key f t) pairs = none)
    (hrev : dictLookup (pair_key t f) pairs = none) :
    ∀ rf u rt u2, get_pair_rate pairs f "USD" = .ok (rf, u) →
      get_pair_rate pairs t "USD" = .ok (rt, u2) →
      (rt ≠ 0 → get_pair_rate pairs f t = .ok (rf / rt, u)) ∧
      (rt = 0 →
        get_pair_rate pairs f t = .error (.apiRequest "Нулевой курс USD-моста")) := by
  obtain ⟨hvf, ⟨cf, hcf⟩, -⟩ := supported_code_facts hf
  obtain ⟨hvt, ⟨ct, hct⟩, -⟩ := supported_code_facts ht
  intro rf u rt u2 h1 h2
  constructor <;> intro hz
  · rw [get_pair_rate.eq_def]
    simp only [hvf, hvt, hcf, hct, hdir, hrev, h1, h2]
    simp [hfU, htU, hz]
  · rw [get_pair_rate.eq_def]
    simp only [hvf, hvt, hcf, hct, hdir, hrev, h1, h2]
    simp [hfU, htU, hz]

/-- Witness for C5: `EUR_USD = 2` and `GBP_USD = 4` stored; the
cross rate EUR→GBP is `2/4 = 1/2` with the `EUR_USD` timestamp. -/
theorem bridge_lookup_rate_witness :
    get_pair_rate
        [("EUR_USD", ⟨2, "0001-01-01T00:00:05Z", "x"⟩),
         ("GBP_USD", ⟨4, "0001-01-01T00:00:06Z", "x"⟩)] "EUR" "GBP"
      = .ok (1 / 2, "0001-01-01T00:00:05Z") := by
  have h := (bridge_lookup_rate
      [("EUR_USD", ⟨2, "0001-01-01T00:00:05Z", "x"⟩),
       ("GBP_USD", ⟨4, "0001-01-01T00:00:06Z", "x"⟩)] "EUR" "GBP"
      (by decide) (by decide) (by decide) (by decide) (by decide) (by decide)
      2 "0001-01-01T00:00:05Z" 4 "0001-01-01T00:00:06Z"
      (by rw [get_pair_rate.eq_def]; rfl)
      (by rw [get_pair_rate.eq_def]; rfl)).1 (by decide)
  have heq : (2 : ℚ) / 4 = 1 / 2 := by norm_num
  rw [heq] at h
  exact h

/-- C10 counterexample: `EUR_EUR` is absent from the snapshot, yet
`get_rate(EUR, EUR)` does not fail — the USD bridge divides
`EUR→USD` by itself and returns the identity rate 1 on the first
attempt, contradicting the claim that the call fails after one refresh
attempt. -/
theorem self_pair_counterexample :
    get_rate_resolve [("EUR_USD", ⟨2, "0001-01-01T00:00:05Z", "x"⟩)]
        (.ok [("EUR_USD", ⟨2, "0001-01-01T00:00:05Z", "x"⟩)]) "EUR" "EUR"
      = .ok (1, "0001-01-01T00:00:05Z") := by
  have hin : get_pair_rate [("EUR_USD", ⟨2, "0001-01-01T00:00:05Z", "x"⟩)] "EUR" "USD"
      = .ok (2, "0001-01-01T00:00:05Z") := by
    rw [get_pair_rate.eq_def]
    rfl
  have hb : get_pair_rate [("EUR_USD", ⟨2, "0001-01-01T00:00:05Z", "x"⟩)] "EUR" "EUR"
      = .ok (1, "0001-01-01T00:00:05Z") := by
    have hv : validate_currency_code "EUR" = .ok () := rfl
    have hc : get_currency "EUR" = .ok (.fiat "Euro" "EUR" "Eurozone") := rfl
    have hlk : dictLookup (pair_key "EUR" "EUR")
        [("EUR_USD", (⟨2, "0001-01-01T00:00:05Z", "x"⟩ : RatePoint))] = none := rfl
    rw [get_pair_rate.eq_def]
    simp only [hv, hc, hlk, hin]
    simp [show "EUR" ≠ "USD" by decide]
  simp [get_rate_resolve, hb]

/-- C10 (amended): with the degenerate key `X_X` absent, the self-rate
fails only for the base currency — `get_rate("USD","USD")` raises the
source-unavailable error after one refresh attempt when both the
original and the refreshed snapshot lack `USD_USD` — whereas a
supported non-base `X` whose `X→USD` rate resolves to a nonzero value
gets the identity rate 1 through the USD bridge.  `convert(amount,X,X)`
returns the amount unchanged via its identity shortcut in every case. -/
theorem self_pair_behaviour (pairs pairs2 : List (String × RatePoint)) :
    (dictLookup "USD_USD" pairs = none → dictLookup "USD_USD" pairs2 = none →
      get_rate_resolve pairs (.ok pairs2) "USD" "USD"
        = .error (.apiRequest "Курс USD→USD не найден в кеше")) ∧
    (∀ X r u, X ∈ registry_codes → X ≠ "USD" →
      dictLookup (pair_key X X) pairs = none →
      get_pair_rate pairs X "USD" = .ok (r, u) → r ≠ 0 →
      get_pair_rate pairs X X = .ok (1, u)) ∧
    (∀ amount X, convert_amount pairs amount X X = .ok amount) := by
  have husd : ∀ (ps : List (String × RatePoint)), dictLookup "USD_USD" ps = none →
      get_pair_rate ps "USD" "USD"
        = .error (.apiRequest "Курс USD→USD не найден в кеше") := by
    intro ps hps
    rw [get_pair_rate.eq_def]
    simp only [show pair_key "USD" "USD" = "USD_USD" from rfl, hps]
    rfl
  refine ⟨?_, ?_, ?_⟩
  · intro h1 h2
    have e1 := husd pairs h1
    have e2 := husd pairs2 h2
    simp [get_rate_resolve, e1, e2]
  · intro X r u hX hXU hXX hb hz
    obtain ⟨hv, ⟨c, hc⟩, -⟩ := supported_code_facts hX
    rw [get_pair_rate.eq_def]
    simp only [hv, hc, hXX, hb]
    simp [hXU, hz, div_self hz]
  · intro amount X
    simp [convert_amount]

/-- Witness for C10's amended statement: the USD self-rate fails on an
empty snapshot, the EUR self-rate bridges to 1, and the converter's
identity shortcut returns the amount. -/
theorem self_pair_behaviour_witness :
    get_rate_resolve [] (.ok []) "USD" "USD"
      = .error (.apiRequest "Курс USD→USD не найден в кеше") ∧
    get_pair_rate [("EUR_USD", ⟨2, "0001-01-01T00:00:05Z", "x"⟩)] "EUR" "EUR"
      = .ok (1, "0001-01-01T00:00:05Z") ∧
    convert_amount [] 5 "BTC" "BTC" = .ok 5 :=
  ⟨(self_pair_behaviour [] []).1 rfl rfl,
   (self_pair_behaviour [("EUR_USD", ⟨2, "0001-01-01T00:00:05Z", "x"⟩)] []).2.1
      "EUR" 2 "0001-01-01T00:00:05Z" (by decide) (by decide) (by decide)
      (by rw [get_pair_rate.eq_def]; rfl) (by decide),
   (self_pair_behaviour [] []).2.2 5 "BTC"⟩

/-! ### Synchronizer (C2, C3) -/

/-- A client's `last_meta` dict; `Option` fields model `meta.get(...)`
with the updater's defaults. -/
structure FetchMeta where
  source : Option String
  timestamp : Option String
  request_ms : Option Int
  status_code : Option Int
  etag : Option String
deriving Repr

/-- One configured client with its `fetch_rates()` outcome reified:
`.error` is the raised-exception path, `.ok` carries the returned
pair→rate dict (as its items list) together with `last_meta`. -/
structure ClientSpec where
  name : String
  result : Except String (List (String × ℚ) × FetchMeta)

/-- One entry of the report's `sources` map. -/
inductive SourceReport where
  | ok (count : Nat)
  | failed (error : String)
deriving DecidableEq, Repr

/-- The loop state of `RatesUpdater.run_update`. -/
structure LoopState where
  combined : List (String × RatePoint)
  history_entries : List HistoryEntry
  total : Nat
  errors : List String
  sources : List (String × SourceReport)

/-- The returned report dict (spec §3 SyncReport). -/
structure UpdateReport where
  ok : Bool
  total : Nat
  last_refresh : String
  errors : List String
  sources : List (String × SourceReport)

/-- Outcome of one `run_update()` call on given stored state:
`report = none` models the raised `RuntimeError`. -/
structure UpdateResult where
  snapshot : Snapshot
  history : List HistoryEntry
  report : Option UpdateReport

/-- Splits at the first occurrence of `sep`. -/
def split_first (sep : Char) : List Char → Option (List Char × List Char)
  | [] => none
  | c :: rest =>
    if c = sep then some ([], rest)
    else
      match split_first sep rest with
      | none => none
      | some (l, r) => some (c :: l, r)

/-- Models `pair.split("_", maxsplit=1)` unpacked into two names; `none` models
the `ValueError` raised when the key holds no underscore. -/
def split_once_underscore (s : String) : Option (String × String) :=
  match split_first '_' s.toList with
  | some (l, r) => some (String.mk l, String.mk r)
  | none => none

/-- The `for pair, rate in rates.items()` loop body of
`RatesUpdater.run_update` (`parser_service/updater.py` lines 40–64):
stores each pair into the combined dict, then builds its history entry;
a malformed pair key aborts the client's processing (combined keeps the
pairs stored so far, including the malformed one, exactly as the Python
loop leaves them). -/
def process_items (crypto_id_map : List (String × String)) (updated_at source : String)
    (meta : FetchMeta) :
    List (String × ℚ) → List (String × RatePoint) → List HistoryEntry →
      List (String × RatePoint) × List HistoryEntry × Except String Nat
  | [], combined, hist => (combined, hist, .ok 0)
  | (pair, rate) :: rest, combined, hist =>
    let combined' := dictSet pair ⟨rate, updated_at, source⟩ combined
    match split_once_underscore pair with
    | none => (combined', hist, .error "not enough values to unpack (expected 2, got 1)")
    | some (from_cur, to_cur) =>
      let entry : HistoryEntry :=
        ⟨from_cur ++ "_" ++ to_cur ++ "_" ++ updated_at, from_cur, to_cur, rate,
          updated_at, source,
          ⟨dictLookup from_cur crypto_id_map, meta.request_ms, meta.status_code, meta.etag⟩⟩
      match process_items crypto_id_map updated_at source meta rest combined'
          (hist ++ [entry]) with
      | (c, h, .ok n) => (c, h, .ok (n + 1))
      | (c, h, .error e) => (c, h, .error e)

/-- One iteration of the `for client in self.clients` loop
(`parser_service/updater.py` lines 30–73). -/
def update_client (crypto_id_map : List (String × String)) (last_refresh : String)
    (st : LoopState) (c : ClientSpec) : LoopState :=
  match c.result with
  | .error e =>
    { st with
        errors := st.errors ++ ["Failed to fetch from " ++ c.name ++ ": " ++ e]
        sources := dictSet c.name (.failed e) st.sources }
  | .ok (rates, meta) =>
    let source := meta.source.getD c.name
    let updated_at := meta.timestamp.getD last_refresh
    match process_items crypto_id_map updated_at source meta rates
        st.combined st.history_entries with
    | (c2, h2, .ok n) =>
      { st with
          combined := c2
          history_entries := h2
          total := st.total + n
          sources := dictSet c.name (.ok n) st.sources }
    | (c2, h2, .error e) =>
      { st with
          combined := c2
          history_entries := h2
          errors := st.errors ++ ["Failed to fetch from " ++ c.name ++ ": " ++ e]
          sources := dictSet c.name (.failed e) st.sources }

/-- The whole client loop. -/
def update_loop (crypto_id_map : List (String × String)) (last_refresh : String)
    (clients : List ClientSpec) (st : LoopState) : LoopState :=
  clients.foldl (update_client crypto_id_map last_refresh) st

/-- The loop's initial state. -/
def init_loop_state : LoopState :=
  ⟨[], [], 0, [], []⟩

/-- Models `RatesUpdater.run_update` (`parser_service/updater.py` lines 19–99)
acting on given stored snapshot and history: when the run fetched zero
rates the `RuntimeError` is raised before any write (`report = none`,
stored state untouched); otherwise the combined map is merge-written,
the history entries appended, and the report returned with `ok = true`
exactly when the errors list is empty. -/
def run_update (crypto_id_map : List (String × String)) (clients : List ClientSpec)
    (last_refresh : String) (snapshot : Snapshot) (history : List HistoryEntry) :
    UpdateResult :=
  let st := update_loop crypto_id_map last_refresh clients init_loop_state
  if st.total = 0 then
    ⟨snapshot, history, none⟩
  else
    ⟨write_snapshot snapshot st.combined last_refresh,
     append_history history st.history_entries,
     some ⟨st.errors.isEmpty, st.total, last_refresh, st.errors, st.sources⟩⟩

/-- The number of pairs a client contributes to `total`: the size of its
rates dict when it fetched successfully and every pair key splits on an
underscore, `0` otherwise (a fetch failure, or the `ValueError` raised
while processing, skips the `total += count` line). -/
def fetched_count (c : ClientSpec) : Nat :=
  match c.result with
  | .error _ => 0
  | .ok (rates, _) =>
    if rates.all (fun p => (split_once_underscore p.1).isSome) then rates.length else 0

theorem update_loop_cons (m : List (String × String)) (lr : String) (c : ClientSpec)
    (rest : List ClientSpec) (st : LoopState) :
    update_loop m lr (c :: rest) st = update_loop m lr rest (update_client m lr st c) := rfl

theorem update_loop_total_of_all_error (m : List (String × String)) (lr : String) :
    ∀ (clients : List ClientSpec) (st : LoopState),
      (∀ c ∈ clients, ∃ e, c.result = Except.error e) →
      (update_loop m lr clients st).total = st.total
  | [], st, _ => rfl
  | c :: rest, st, hall => by
    obtain ⟨e, he⟩ := hall c (by simp)
    rw [update_loop_cons]
    rw [update_loop_total_of_all_error m lr rest _
      (fun c2 hc2 => hall c2 (List.mem_cons_of_mem c hc2))]
    simp [update_client, he]

/-- C2: in a run where every client's fetch fails (so zero rates are
fetched), `run_update` raises the fatal `RuntimeError` instead of
returning a report, and neither the snapshot nor the history is
modified — no `write_snapshot` or `append_history` call occurs. -/
theorem run_update_total_failure (m : List (String × String)) (clients : List ClientSpec)
    (lr : String) (s : Snapshot) (h0 : List HistoryEntry)
    (hall : ∀ c ∈ clients, ∃ e, c.result = Except.error e) :
    (run_update m clients lr s h0).report = none ∧
    (run_update m clients lr s h0).snapshot = s ∧
    (run_update m clients lr s h0).history = h0 := by
  have ht : (update_loop m lr clients init_loop_state).total = 0 :=
    update_loop_total_of_all_error m lr clients init_loop_state hall
  refine ⟨?_, ?_, ?_⟩ <;> simp [run_update, ht]

/-- Failing sample client (CoinGecko side). -/
def sample_client_err2 : ClientSpec :=
  ⟨"CoinGeckoClient", .error "CoinGecko: 429 Too Many Requests"⟩

/-- Failing sample client (ExchangeRate-API side). -/
def sample_client_err : ClientSpec :=
  ⟨"ExchangeRateApiClient", .error "ExchangeRate-API: server error 500"⟩

/-- Witness for C2: two clients, both failing. -/
theorem run_update_total_failure_witness :
    (run_update [] [sample_client_err2, sample_client_err] "0001-01-01T00:00:09Z"
        sample_snapshot []).report = none ∧
    (run_update [] [sample_client_err2, sample_client_err] "0001-01-01T00:00:09Z"
        sample_snapshot []).snapshot = sample_snapshot ∧
    (run_update [] [sample_client_err2, sample_client_err] "0001-01-01T00:00:09Z"
        sample_snapshot []).history = [] := by
  refine run_update_total_failure [] _ _ sample_snapshot [] ?_
  intro c hc
  rcases List.mem_cons.mp hc with rfl | hc2
  · exact ⟨_, rfl⟩
  rcases List.mem_cons.mp hc2 with rfl | hc3
  · exact ⟨_, rfl⟩
  · simp at hc3

theorem process_items_third (m : List (String × String)) (ua src : String) (meta : FetchMeta) :
    ∀ (rates : List (String × ℚ)) (combined : List (String × RatePoint))
      (hist : List HistoryEntry),
      (process_items m ua src meta rates combined hist).2.2
        = if rates.all (fun p => (split_once_underscore p.1).isSome)
          then Except.ok rates.length
          else Except.error "not enough values to unpack (expected 2, got 1)"
  | [], combined, hist => by simp [process_items]
  | (pair, rate) :: rest, combined, hist => by
    cases hs : split_once_underscore pair with
    | none => simp [process_items, hs]
    | some pr =>
      obtain ⟨fc, tc⟩ := pr
      have ih := process_items_third m ua src meta rest
        (dictSet pair ⟨rate, ua, src⟩ combined)
        (hist ++ [⟨fc ++ "_" ++ tc ++ "_" ++ ua, fc, tc, rate, ua, src,
          ⟨dictLookup fc m, meta.request_ms, meta.status_code, meta.etag⟩⟩])
      rcases hE : process_items m ua src meta rest
          (dictSet pair ⟨rate, ua, src⟩ combined)
          (hist ++ [⟨fc ++ "_" ++ tc ++ "_" ++ ua, fc, tc, rate, ua, src,
            ⟨dictLookup fc m, meta.request_ms, meta.status_code, meta.etag⟩⟩])
        with ⟨c2, h2, r⟩
      rw [hE] at ih
      have ih' : r = (if rest.all (fun p => (split_once_underscore p.1).isSome)
          then Except.ok rest.length
          else Except.error "not enough values to unpack (expected 2, got 1)") := ih
      by_cases hall : rest.all (fun p => (split_once_underscore p.1).isSome)
      · rw [if_pos hall] at ih'
        subst ih'
        simp [process_items, hs, hE, hall]
      · rw [if_neg hall] at ih'
        subst ih'
        simp [process_items, hs, hE, hall]

theorem update_client_total (m : List (String × String)) (lr : String)
    (st : LoopState) (c : ClientSpec) :
    (update_client m lr st c).total = st.total + fetched_count c := by
  cases hr : c.result with
  | error e => simp [update_client, hr, fetched_count]
  | ok pr =>
    obtain ⟨rates, meta⟩ := pr
    have h3 := process_items_third m (meta.timestamp.getD lr) (meta.source.getD c.name)
      meta rates st.combined st.history_entries
    rcases hE : process_items m (meta.timestamp.getD lr) (meta.source.getD c.name)
        meta rates st.combined st.history_entries with ⟨c2, h2, r⟩
    rw [hE] at h3
    have h3' : r = (if rates.all (fun p => (split_once_underscore p.1).isSome)
        then Except.ok rates.length
        else Except.error "not enough values to unpack (expected 2, got 1)") := h3
    by_cases hall : rates.all (fun p => (split_once_underscore p.1).isSome)
    · rw [if_pos hall] at h3'
      subst h3'
      simp [update_client, hr, hE, fetched_count, hall]
    · rw [if_neg hall] at h3'
      subst h3'
      simp [update_client, hr, hE, fetched_count, hall]

theorem update_loop_total (m : List (String × String)) (lr : String) :
    ∀ (clients : List ClientSpec) (st : LoopState),
      (update_loop m lr clients st).total = st.total + (clients.map fetched_count).sum
  | [], st => by simp [update_loop]
  | c :: rest, st => by
    rw [update_loop_cons, update_loop_total m lr rest _, update_client_total]
    simp [Nat.add_assoc]

theorem update_client_errors (m : List (String × String)) (lr : String)
    (st : LoopState) (c : ClientSpec) :
    ∃ tail, (update_client m lr st c).errors = st.errors ++ tail := by
  cases hr : c.result with
  | error e =>
    exact ⟨["Failed to fetch from " ++ c.name ++ ": " ++ e], by simp [update_client, hr]⟩
  | ok pr =>
    obtain ⟨rates, meta⟩ := pr
    rcases hE : process_items m (meta.timestamp.getD lr) (meta.source.getD c.name)
        meta rates st.combined st.history_entries with ⟨c2, h2, r⟩
    cases r with
    | ok n => exact ⟨[], by simp [update_client, hr, hE]⟩
    | error e =>
      exact ⟨["Failed to fetch from " ++ c.name ++ ": " ++ e],
        by simp [update_client, hr, hE]⟩

theorem update_loop_errors (m : List (String × String)) (lr : String) :
    ∀ (clients : List ClientSpec) (st : LoopState),
      ∃ tail, (update_loop m lr clients st).errors = st.errors ++ tail
  | [], st => ⟨[], by simp [update_loop]⟩
  | c :: rest, st => by
    obtain ⟨t1, h1⟩ := update_client_errors m lr st c
    obtain ⟨t2, h2⟩ := update_loop_errors m lr rest (update_client m lr st c)
    exact ⟨t1 ++ t2, by rw [update_loop_cons, h2, h1, List.append_assoc]⟩

theorem update_loop_errors_ne (m : List (String × String)) (lr : String) :
    ∀ (clients : List ClientSpec) (st : LoopState) (c : ClientSpec) (e : String),
      c ∈ clients → c.result = Except.error e →
      (update_loop m lr clients st).errors ≠ []
  | [], _, c, _, hc, _ => by simp at hc
  | c0 :: rest, st, c, e, hc, he => by
    rcases List.mem_cons.mp hc with rfl | hc2
    · rw [update_loop_cons]
      obtain ⟨tail, htail⟩ := update_loop_errors m lr rest (update_client m lr st c)
      rw [htail]
      simp [update_client, he]
    · rw [update_loop_cons]
      exact update_loop_errors_ne m lr rest _ c e hc2 he

theorem update_client_sources_key (m : List (String × String)) (lr : String)
    (st : LoopState) (c : ClientSpec) (k : String) (hk : k ≠ c.name) :
    dictLookup k (update_client m lr st c).sources = dictLookup k st.sources := by
  cases hr : c.result with
  | error e => simp [update_client, hr, dictLookup_set_ne hk]
  | ok pr =>
    obtain ⟨rates, meta⟩ := pr
    rcases hE : process_items m (meta.timestamp.getD lr) (meta.source.getD c.name)
        meta rates st.combined st.history_entries with ⟨c2, h2, r⟩
    cases r with
    | ok n => simp [update_client, hr, hE, dictLookup_set_ne hk]
    | error e => simp [update_client, hr, hE, dictLookup_set_ne hk]

theorem update_loop_sources_frame (m : List (String × String)) (lr : String) :
    ∀ (clients : List ClientSpec) (st : LoopState) (k : String),
      k ∉ clients.map ClientSpec.name →
      dictLookup k (update_loop m lr clients st).sources = dictLookup k st.sources
  | [], _, _, _ => rfl
  | c :: rest, st, k, hk => by
    have hk1 : k ≠ c.name := fun hh => hk (by simp [hh])
    have hk2 : k ∉ rest.map ClientSpec.name := fun hh => hk (by simp [hh])
    rw [update_loop_cons, update_loop_sources_frame m lr rest _ k hk2,
      update_client_sources_key m lr st c k hk1]

theorem update_loop_sources_failed (m : List (String × String)) (lr : String) :
    ∀ (clients : List ClientSpec) (st : LoopState) (c : ClientSpec) (e : String),
      (clients.map ClientSpec.name).Nodup → c ∈ clients → c.result = Except.error e →
      dictLookup c.name (update_loop m lr clients st).sources = some (.failed e)
  | [], _, c, _, _, hc, _ => by simp at hc
  | c0 :: rest, st, c, e, hnd, hc, he => by
    rw [List.map_cons, List.nodup_cons] at hnd
    rcases List.mem_cons.mp hc with rfl | hc2
    · rw [update_loop_cons, update_loop_sources_frame m lr rest _ c.name hnd.1]
      simp [update_client, he, dictLookup_set_self]
    · rw [update_loop_cons]
      exact update_loop_sources_failed m lr rest _ c e hnd.2 hc2 he

theorem dictSet_isSome {α : Type} (k k2 : String) (v : α) (l : List (String × α))
    (h : (dictLookup k l).isSome) : (dictLookup k (dictSet k2 v l)).isSome := by
  by_cases hk : k = k2
  · subst hk
    rw [dictLookup_set_self]
    rfl
  · rw [dictLookup_set_ne hk]
    exact h

theorem process_items_combined_mono (m : List (String × String)) (ua src : String)
    (meta : FetchMeta) :
    ∀ (rates : List (String × ℚ)) (combined : List (String × RatePoint))
      (hist : List HistoryEntry) (k : String),
      (dictLookup k combined).isSome →
      (dictLookup k (process_items m ua src meta rates combined hist).1).isSome
  | [], _, _, _, h => h
  | (pair, rate) :: rest, combined, hist, k, h => by
    have h' := dictSet_isSome k pair (⟨rate, ua, src⟩ : RatePoint) combined h
    cases hs : split_once_underscore pair with
    | none => simpa [process_items, hs] using h'
    | some pr =>
      obtain ⟨fc, tc⟩ := pr
      have ih := process_items_combined_mono m ua src meta rest
        (dictSet pair ⟨rate, ua, src⟩ combined)
        (hist ++ [⟨fc ++ "_" ++ tc ++ "_" ++ ua, fc, tc, rate, ua, src,
          ⟨dictLookup fc m, meta.request_ms, meta.status_code, meta.etag⟩⟩]) k h'
      rcases hE : process_items m ua src meta rest
          (dictSet pair ⟨rate, ua, src⟩ combined)
          (hist ++ [⟨fc ++ "_" ++ tc ++ "_" ++ ua, fc, tc, rate, ua, src,
            ⟨dictLookup fc m, meta.request_ms, meta.status_code, meta.etag⟩⟩])
        with ⟨c2, h2, r⟩
      rw [hE] at ih
      cases r with
      | ok n => simpa [process_items, hs, hE] using ih
      | error e => simpa [process_items, hs, hE] using ih

theorem process_items_combined_mem (m : List (String × String)) (ua src : String)
    (meta : FetchMeta) :
    ∀ (rates : List (String × ℚ)) (combined : List (String × RatePoint))
      (hist : List HistoryEntry) (k : String),
      rates.all (fun p => (split_once_underscore p.1).isSome) →
      k ∈ rates.map Prod.fst →
      (dictLookup k (process_items m ua src meta rates combined hist).1).isSome
  | [], _, _, _, _, hk => by simp at hk
  | (pair, rate) :: rest, combined, hist, k, hall, hk => by
    have hall' : (split_once_underscore pair).isSome
        ∧ rest.all (fun p => (split_once_underscore p.1).isSome) := by
      simpa using hall
    cases hs : split_once_underscore pair with
    | none =>
      rw [hs] at hall'
      simp at hall'
    | some pr =>
      obtain ⟨fc, tc⟩ := pr
      rw [List.map_cons] at hk
      rcases List.mem_cons.mp hk with rfl | hk2
      · have hset : (dictLookup k (dictSet k (⟨rate, ua, src⟩ : RatePoint) combined)).isSome := by
          rw [dictLookup_set_self]
          rfl
        have hmono := process_items_combined_mono m ua src meta rest
          (dictSet k ⟨rate, ua, src⟩ combined)
          (hist ++ [⟨fc ++ "_" ++ tc ++ "_" ++ ua, fc, tc, rate, ua, src,
            ⟨dictLookup fc m, meta.request_ms, meta.status_code, meta.etag⟩⟩]) k hset
        rcases hE : process_items m ua src meta rest
            (dictSet k ⟨rate, ua, src⟩ combined)
            (hist ++ [⟨fc ++ "_" ++ tc ++ "_" ++ ua, fc, tc, rate, ua, src,
              ⟨dictLookup fc m, meta.request_ms, meta.status_code, meta.etag⟩⟩])
          with ⟨c2, h2, r⟩
        rw [hE] at hmono
        cases r with
        | ok n => simpa [process_items, hs, hE] using hmono
        | error e => simpa [process_items, hs, hE] using hmono
      · have ih := process_items_combined_mem m ua src meta rest
          (dictSet pair ⟨rate, ua, src⟩ combined)
          (hist ++ [⟨fc ++ "_" ++ tc ++ "_" ++ ua, fc, tc, rate, ua, src,
            ⟨dictLookup fc m, meta.request_ms, meta.status_code, meta.etag⟩⟩])
          k hall'.2 hk2
        rcases hE : process_items m ua src meta rest
            (dictSet pair ⟨rate, ua, src⟩ combined)
            (hist ++ [⟨fc ++ "_" ++ tc ++ "_" ++ ua, fc, tc, rate, ua, src,
              ⟨dictLookup fc m, meta.request_ms, meta.status_code, meta.etag⟩⟩])
          with ⟨c2, h2, r⟩
        rw [hE] at ih
        cases r with
        | ok n => simpa [process_items, hs, hE] using ih
        | error e => simpa [process_items, hs, hE] using ih

theorem update_client_combined_mono (m : List (String × String)) (lr : String)
    (st : LoopState) (c : ClientSpec) (k : String)
    (h : (dictLookup k st.combined).isSome) :
    (dictLookup k (update_client m lr st c).combined).isSome := by
  cases hr : c.result with
  | error e => simpa [update_client, hr] using h
  | ok pr =>
    obtain ⟨rates, meta⟩ := pr
    have hmono := process_items_combined_mono m (meta.timestamp.getD lr)
      (meta.source.getD c.name) meta rates st.combined st.history_entries k h
    rcases hE : process_items m (meta.timestamp.getD lr) (meta.source.getD c.name)
        meta rates st.combined st.history_entries with ⟨c2, h2, r⟩
    rw [hE] at hmono
    cases r with
    | ok n => simpa [update_client, hr, hE] using hmono
    | error e => simpa [update_client, hr, hE] using hmono

theorem update_loop_combined_mono (m : List (String × String)) (lr : String) :
    ∀ (clients : List ClientSpec) (st : LoopState) (k : String),
      (dictLookup k st.combined).isSome →
      (dictLookup k (update_loop m lr clients st).combined).isSome
  | [], _, _, h => h
  | c :: rest, st, k, h => by
    rw [update_loop_cons]
    exact update_loop_combined_mono m lr rest _ k
      (update_client_combined_mono m lr st c k h)

theorem update_loop_fetched_keys (m : List (String × String)) (lr : String) :
    ∀ (clients : List ClientSpec) (st : LoopState) (c : ClientSpec)
      (rates : List (String × ℚ)) (meta : FetchMeta),
      c ∈ clients → c.result = Except.ok (rates, meta) →
      rates.all (fun p => (split_once_underscore p.1).isSome) →
      ∀ k, k ∈ rates.map Prod.fst →
        (dictLookup k (update_loop m lr clients st).combined).isSome
  | [], _, c, _, _, hc, _, _, _, _ => by simp at hc
  | c0 :: rest, st, c, rates, meta, hc, hr, hall, k, hk => by
    rw [update_loop_cons]
    rcases List.mem_cons.mp hc with rfl | hc2
    · apply update_loop_combined_mono
      have hmem := process_items_combined_mem m (meta.timestamp.getD lr)
        (meta.source.getD c.name) meta rates st.combined st.history_entries k hall hk
      rcases hE : process_items m (meta.timestamp.getD lr) (meta.source.getD c.name)
          meta rates st.combined st.history_entries with ⟨c2, h2, r⟩
      rw [hE] at hmem
      cases r with
      | ok n => simpa [update_client, hr, hE] using hmem
      | error e => simpa [update_client, hr, hE] using hmem
    · exact update_loop_fetched_keys m lr rest _ c rates meta hc2 hr hall k hk

theorem sum_fetched_pos {l : List ClientSpec} {c : ClientSpec} (hc : c ∈ l)
    (h : 0 < fetched_count c) : 0 < (l.map fetched_count).sum := by
  induction l with
  | nil => simp at hc
  | cons c0 rest ih =>
    rw [List.map_cons, List.sum_cons]
    rcases List.mem_cons.mp hc with rfl | hc2
    · omega
    · have := ih hc2
      omega

/-- C3: in a run where at least one client fails and at least one client
fetches a nonzero number of pairs, `run_update` returns a report rather
than raising: `ok = false`, `total` is the summed pair count of the
(fully) successful clients, the errors list is nonempty, each
fetch-failing client's `sources` entry records its error, `ok = true`
holds exactly when the errors list is empty — and every pair key fetched
by a fully successful client is present in the snapshot that was
merge-written, so partial success is persisted, not discarded. -/
theorem run_update_partial_failure (m : List (String × String)) (clients : List ClientSpec)
    (lr : String) (s : Snapshot) (h0 : List HistoryEntry)
    (hnames : (clients.map ClientSpec.name).Nodup)
    (hfail : ∃ c ∈ clients, ∃ e, c.result = Except.error e)
    (hsucc : ∃ c ∈ clients, 0 < fetched_count c) :
    ∃ r, (run_update m clients lr s h0).report = some r ∧
      r.ok = false ∧
      r.total = (clients.map fetched_count).sum ∧
      r.errors ≠ [] ∧
      (r.ok = true ↔ r.errors = []) ∧
      (∀ c ∈ clients, ∀ e2, c.result = Except.error e2 →
        dictLookup c.name r.sources = some (.failed e2)) ∧
      (∀ c ∈ clients, ∀ rates meta, c.result = Except.ok (rates, meta) →
        rates.all (fun p => (split_once_underscore p.1).isSome) →
        ∀ k ∈ rates.map Prod.fst,
          (dictLookup k (run_update m clients lr s h0).snapshot.pairs).isSome) := by
  obtain ⟨cf, hcf, e, he⟩ := hfail
  obtain ⟨cs, hcs, hpos⟩ := hsucc
  set st := update_loop m lr clients init_loop_state with hst
  have htot : st.total = (clients.map fetched_count).sum := by
    rw [hst, update_loop_total]
    simp [init_loop_state]
  have hne : ¬ st.total = 0 := by
    have := sum_fetched_pos hcs hpos
    omega
  have herr : st.errors ≠ [] :=
    update_loop_errors_ne m lr clients init_loop_state cf e hcf he
  have hempty : st.errors.isEmpty = false := by
    cases herrs : st.errors with
    | nil => exact absurd herrs herr
    | cons a l => rfl
  have hform : run_update m clients lr s h0
      = if st.total = 0 then ⟨s, h0, none⟩
        else ⟨write_snapshot s st.combined lr, append_history h0 st.history_entries,
          some ⟨st.errors.isEmpty, st.total, lr, st.errors, st.sources⟩⟩ := rfl
  rw [if_neg hne] at hform
  refine ⟨⟨st.errors.isEmpty, st.total, lr, st.errors, st.sources⟩, ?_, ?_, ?_, ?_, ?_, ?_, ?_⟩
  · rw [hform]
  · exact hempty
  · exact htot
  · exact herr
  · rw [hempty]
    simp [herr]
  · intro c hc e2 he2
    exact update_loop_sources_failed m lr clients init_loop_state c e2 hnames hc he2
  · intro c hc rates meta hr hall k hk
    rw [hform]
    apply merge_all_isSome_of_mem
    exact dictLookup_isSome_mem_keys
      (update_loop_fetched_keys m lr clients init_loop_state c rates meta hc hr hall k hk)

/-- Sample empty client metadata. -/
def sample_meta0 : FetchMeta :=
  ⟨none, none, none, none, none⟩

/-- Successful sample client fetching one pair. -/
def sample_client_ok : ClientSpec :=
  ⟨"CoinGeckoClient", .ok ([("BTC_USD", 9)], sample_meta0)⟩

/-- Witness for C3: one client succeeds with one pair, one fails. -/
theorem run_update_partial_failure_witness :
    ∃ r, (run_update [] [sample_client_ok, sample_client_err] "0001-01-01T00:00:09Z"
        sample_snapshot []).report = some r ∧
      r.ok = false ∧
      r.total = ([sample_client_ok, sample_client_err].map fetched_count).sum ∧
      r.errors ≠ [] ∧
      (r.ok = true ↔ r.errors = []) ∧
      (∀ c ∈ [sample_client_ok, sample_client_err], ∀ e2, c.result = Except.error e2 →
        dictLookup c.name r.sources = some (.failed e2)) ∧
      (∀ c ∈ [sample_client_ok, sample_client_err], ∀ rates meta,
        c.result = Except.ok (rates, meta) →
        rates.all (fun p => (split_once_underscore p.1).isSome) →
        ∀ k ∈ rates.map Prod.fst,
          (dictLookup k (run_update [] [sample_client_ok, sample_client_err]
              "0001-01-01T00:00:09Z" sample_snapshot []).snapshot.pairs).isSome) :=
  run_update_partial_failure [] [sample_client_ok, sample_client_err]
    "0001-01-01T00:00:09Z" sample_snapshot []
    (by decide)
    ⟨sample_client_err,
      List.mem_cons_of_mem sample_client_ok (List.mem_cons_self sample_client_err []),
      "ExchangeRate-API: server error 500", rfl⟩
    ⟨sample_client_ok, List.mem_cons_self sample_client_ok [sample_client_err], by decide⟩

/-! ### ExchangeRate-API client normalization (C8) -/

/-- The `for code in self.cfg.FIAT_CURRENCIES` normalization loop of
`ExchangeRateApiClient.fetch_rates` (`parser_service/api_clients.py`
lines 109–120): skip the base currency, skip codes missing from the
provider payload, skip a raw value of exactly zero (`continue`), and
otherwise store the inverted rate `1/value` under `pair_key(code, base)`.
A code failing validation raises (`ValueError`). -/
def exchangerate_normalize (base : String) (rates : List (String × ℚ)) :
    List String → List (String × ℚ) → Except RateError (List (String × ℚ))
  | [], out => .ok out
  | code :: rest, out =>
    match validate_currency_code code with
    | .error e => .error e
    | .ok _ =>
      if code = base then exchangerate_normalize base rates rest out
      else
        match dictLookup code rates with
        | none => exchangerate_normalize base rates rest out
        | some value =>
          if value = 0 then exchangerate_normalize base rates rest out
          else exchangerate_normalize base rates rest
            (dictSet (pair_key code base) (1 / value) out)

/-- Models `ExchangeRateApiClient.fetch_rates` after a 200 response (the network
call and status-code branching are I/O): a missing API key and a
non-`success` result raise `ApiRequestError`; otherwise the payload's
`rates` map is normalized.  The configuration values (API key, fiat
list, base currency), which live in the `parser_service/config.py` file
absent from `src/`, are parameters. -/
def exchangerate_fetch_core (api_key : Option String) (fiat_currencies : List String)
    (base_currency : String) (result : Option String) (error_type : Option String)
    (rates : List (String × ℚ)) : Except RateError (List (String × ℚ)) :=
  match api_key with
  | none =>
    .error (.apiRequest "ExchangeRate-API key is missing (set EXCHANGERATE_API_KEY env var)")
  | some _ =>
    if result ≠ some "success" then
      .error (.apiRequest ("ExchangeRate-API error: " ++ error_type.getD "unknown"))
    else
      exchangerate_normalize base_currency rates fiat_currencies []

/-- A well-formed output pair of the normalization: a nonzero inverted
rate coming from a nonzero provider value of a non-base code in `S`. -/
def good_out_pair (S : List String) (base : String) (rates : List (String × ℚ))
    (p : String × ℚ) : Prop :=
  p.2 ≠ 0 ∧ ∃ c v, c ∈ S ∧ c ≠ base ∧ p.1 = pair_key c base
    ∧ dictLookup c rates = some v ∧ v ≠ 0 ∧ p.2 = 1 / v

theorem exchangerate_normalize_spec (base : String) (rates : List (String × ℚ))
    (S : List String) :
    ∀ (fiat : List String) (out : List (String × ℚ)),
      (∀ c ∈ fiat, validate_currency_code c = .ok ()) →
      (∀ c ∈ fiat, c ∈ S) →
      (∀ p ∈ out, good_out_pair S base rates p) →
      ∃ res, exchangerate_normalize base rates fiat out = .ok res ∧
        ∀ p ∈ res, good_out_pair S base rates p
  | [], out, _, _, hout => ⟨out, rfl, hout⟩
  | code :: rest, out, hval, hsub, hout => by
    have hv : validate_currency_code code = .ok () := hval code (by simp)
    have hval' : ∀ c ∈ rest, validate_currency_code c = .ok () :=
      fun c hc => hval c (List.mem_cons_of_mem code hc)
    have hsub' : ∀ c ∈ rest, c ∈ S :=
      fun c hc => hsub c (List.mem_cons_of_mem code hc)
    by_cases hb : code = base
    · obtain ⟨res, hres, hgood⟩ :=
        exchangerate_normalize_spec base rates S rest out hval' hsub' hout
      refine ⟨res, ?_, hgood⟩
      simp only [exchangerate_normalize]
      rw [hv]
      simp [hb, hres]
    · cases hlk : dictLookup code rates with
      | none =>
        obtain ⟨res, hres, hgood⟩ :=
          exchangerate_normalize_spec base rates S rest out hval' hsub' hout
        refine ⟨res, ?_, hgood⟩
        simp only [exchangerate_normalize]
        rw [hv]
        simp [hb, hlk, hres]
      | some value =>
        by_cases hz : value = 0
        · obtain ⟨res, hres, hgood⟩ :=
            exchangerate_normalize_spec base rates S rest out hval' hsub' hout
          refine ⟨res, ?_, hgood⟩
          simp only [exchangerate_normalize]
          rw [hv]
          simp [hb, hlk, hz, hres]
        · have hout' : ∀ p ∈ dictSet (pair_key code base) (1 / value) out,
              good_out_pair S base rates p := by
            intro p hp
            rcases mem_of_dictSet hp with rfl | hp2
            · exact ⟨one_div_ne_zero hz,
                code, value, hsub code (by simp), hb, rfl, hlk, hz, rfl⟩
            · exact hout p hp2
          obtain ⟨res, hres, hgood⟩ :=
            exchangerate_normalize_spec base rates S rest
              (dictSet (pair_key code base) (1 / value) out) hval' hsub' hout'
          refine ⟨res, ?_, hgood⟩
          simp only [exchangerate_normalize]
          rw [hv]
          simp [hb, hlk, hz]
          simpa [one_div] using hres

/-- C8 counterexample: the provider reports the inverse-direction value
for EUR as exactly zero, yet the fetch succeeds with the pair silently
omitted (`continue`) — no protocol (malformed-payload) error is
raised. -/
theorem zero_rate_counterexample :
    exchangerate_fetch_core (some "key") ["EUR"] "USD" (some "success") none [("EUR", 0)]
      = .ok [] := rfl

/-- C8 (amended): a provider value of exactly zero is never returned as
a valid rate, but it is silently skipped rather than treated as a
protocol error: given a present API key and a `success` payload, the
fetch returns `ok` whatever zero values the payload holds, and every
returned pair carries a nonzero rate `1/v` inverted from a nonzero
provider value `v` of a non-base fiat code. -/
theorem exchangerate_zero_skip (fiat : List String) (base : String)
    (rates : List (String × ℚ)) (key : String)
    (hval : ∀ c ∈ fiat, validate_currency_code c = .ok ()) :
    ∃ out, exchangerate_fetch_core (some key) fiat base (some "success") none rates
        = .ok out ∧
      ∀ p ∈ out, p.2 ≠ 0 ∧ ∃ c v, c ∈ fiat ∧ c ≠ base ∧ p.1 = pair_key c base
        ∧ dictLookup c rates = some v ∧ v ≠ 0 ∧ p.2 = 1 / v := by
  obtain ⟨res, hres, hgood⟩ :=
    exchangerate_normalize_spec base rates fiat fiat [] hval (fun _ hc => hc) (by simp)
  exact ⟨res, by simp [exchangerate_fetch_core, hres], hgood⟩

/-- Witness for C8's amended statement: EUR reported as zero is skipped,
GBP reported as 4 is inverted. -/
theorem exchangerate_zero_skip_witness :
    ∃ out, exchangerate_fetch_core (some "key") ["EUR", "GBP"] "USD" (some "success") none
        [("EUR", 0), ("GBP", 4)] = .ok out ∧
      ∀ p ∈ out, p.2 ≠ 0 ∧ ∃ c v, c ∈ ["EUR", "GBP"] ∧ c ≠ "USD"
        ∧ p.1 = pair_key c "USD"
        ∧ dictLookup c [("EUR", 0), ("GBP", 4)] = some v ∧ v ≠ 0 ∧ p.2 = 1 / v := by
  refine exchangerate_zero_skip ["EUR", "GBP"] "USD" [("EUR", 0), ("GBP", 4)] "key" ?_
  intro c hc
  rcases List.mem_cons.mp hc with rfl | hc2
  · rfl
  rcases List.mem_cons.mp hc2 with rfl | hc3
  · rfl
  · simp at hc3

/-- C3 counterexample: a client can succeed while returning zero pairs;
with one such client and one failing client the run fetched zero rates
in total, so `run_update` raises the fatal error (`report = none`)
instead of returning the claimed `ok = false` report. -/
theorem partial_failure_needs_pairs_counterexample :
    (run_update [] [⟨"CoinGeckoClient", Except.ok ([], sample_meta0)⟩, sample_client_err]
        "0001-01-01T00:00:09Z" sample_snapshot []).report = none := rfl

end ValutaTrade
